import Mathlib

/-!
Verification of the tar archive codec (src/tar.py) against its
natural-language specification.  Bytes are modelled as `Nat` values
(< 256 in any real run), byte strings as `List Nat`, and the fallible
parts of the code as `Option`-valued functions where `none` stands for
a raised exception.
-/

set_option maxRecDepth 100000
set_option maxHeartbeats 1600000

namespace Tar

/-- Pad a field value with NUL bytes up to width `w`.  This is what a
ctypes `c_char * w` field stores when assigned a value of length at
most `w`. -/
def padTo (w : Nat) (v : List Nat) : List Nat :=
  v ++ List.replicate (w - v.length) 0

/-- Assignment to a ctypes `c_char * w` field: raises `ValueError`
(modelled as `none`) when the byte string is longer than the field,
otherwise stores it NUL-padded to exactly `w` bytes. -/
def setField (w : Nat) (v : List Nat) : Option (List Nat) :=
  if v.length > w then none else some (padTo w v)

/-- Assignment to the single ctypes `c_char` typeflag field
(src/tar.py line 250): a one-byte value is stored, while the empty
string produced by the classifier for unsupported file kinds raises
(modelled as `none`). -/
def setCharField : Option Nat → Option (List Nat)
  | none => none
  | some b => some [b]

/-- Memory image of one ctypes `c_char * w` field: exactly `w` bytes,
NUL-padded (values longer than `w` cannot be stored, truncation is
included only to keep the function total). -/
def fieldBytes (w : Nat) (v : List Nat) : List Nat :=
  v.take w ++ List.replicate (w - v.length) 0

/-- The `TarHeader` ctypes structure of src/tar.py lines 44-68: the
POSIX ustar header with its seventeen fixed-width byte fields.  The
`prefix` and `pad` fields of the source are renamed `prefixField` and
`padField` here. -/
structure TarHeader where
  name : List Nat
  mode : List Nat
  uid : List Nat
  gid : List Nat
  size : List Nat
  mtime : List Nat
  chksum : List Nat
  typeflag : List Nat
  linkname : List Nat
  magic : List Nat
  version : List Nat
  uname : List Nat
  gname : List Nat
  devmajor : List Nat
  devminor : List Nat
  prefixField : List Nat
  padField : List Nat
deriving DecidableEq

/-- The packed memory image of a `TarHeader` (`_pack_ = 1`): the
concatenation of its fields at their declared widths
100,8,8,8,12,12,8,1,100,6,2,32,32,8,8,155,12 (total 512). -/
def serializeTarHeader (h : TarHeader) : List Nat :=
  fieldBytes 100 h.name ++ fieldBytes 8 h.mode ++ fieldBytes 8 h.uid ++
  fieldBytes 8 h.gid ++ fieldBytes 12 h.size ++ fieldBytes 12 h.mtime ++
  fieldBytes 8 h.chksum ++ fieldBytes 1 h.typeflag ++ fieldBytes 100 h.linkname ++
  fieldBytes 6 h.magic ++ fieldBytes 2 h.version ++ fieldBytes 32 h.uname ++
  fieldBytes 32 h.gname ++ fieldBytes 8 h.devmajor ++ fieldBytes 8 h.devminor ++
  fieldBytes 155 h.prefixField ++ fieldBytes 12 h.padField

/-- A freshly constructed `TarHeader()`: ctypes zero-initialises every
field. -/
def TarHeader.zeroed : TarHeader :=
  ⟨[], [], [], [], [], [], [], [], [], [], [], [], [], [], [], [], []⟩

/-- A fresh header whose checksum field has been set to eight spaces
(byte 0x20 = 32), as in src/tar.py line 249. -/
def TarHeader.spacesChksum : TarHeader :=
  ⟨[], [], [], [], [], [], List.replicate 8 32, [], [], [], [], [], [], [], [], [], []⟩

/-- The checksum of src/tar.py lines 123-129: the header record is
written to a byte stream, read back, and the unsigned byte values are
summed. -/
def get_header_checksum (record : List Nat) : Nat := record.sum

/-- Little-endian base-8 digit list, computed with structural fuel so
that it evaluates by kernel reduction; with enough fuel it agrees with
`Nat.digits 8`. -/
def octDigitsAux (fuel n : Nat) : List Nat :=
  match fuel, n with
  | _, 0 => []
  | 0, _ => []
  | fuel + 1, n + 1 => (n + 1) % 8 :: octDigitsAux fuel ((n + 1) / 8)

/-- Octal rendering of a natural number, as the Python format
`"{:o}".format(n)` produces it: most-significant digit first, the
single digit 0 for zero, as ASCII bytes. -/
def octBytes (n : Nat) : List Nat :=
  if n = 0 then [48] else ((octDigitsAux n n).map (fun d => d + 48)).reverse

/-- Zero-padded octal rendering, as `"{:0wo}".format(n)` produces it:
ASCII zeroes in front up to a minimum width `w`. -/
def fmtOctal (w n : Nat) : List Nat :=
  List.replicate (w - (octBytes n).length) 48 ++ octBytes n

/-- Data length rounded up to the next 512-byte boundary,
`int(math.ceil(file_size / 512.0) * 512)` of src/tar.py computed in
exact arithmetic (the float computation of the source is exact for all
sizes below 2^52). -/
def ceilBlocks (n : Nat) : Nat := ((n + 511) / 512) * 512

/-- ASCII octal digit test. -/
def isOctDigit (b : Nat) : Bool := decide (48 ≤ b) && decide (b ≤ 55)

/-- The octal integer parser `int(text, 8)` as used on decoded header
fields, modelled on the digit-only strings this writer emits: `none`
(a raised `ValueError`) on an empty string or any non-digit byte,
otherwise the base-8 value. -/
def parseOctal (bs : List Nat) : Option Nat :=
  if bs.isEmpty then none
  else if bs.all isOctDigit then
    some (bs.foldl (fun a b => a * 8 + (b - 48)) 0)
  else none

/-- Reading a ctypes `c_char * w` field back: the stored bytes up to
(not including) the first NUL. -/
def cstr (bs : List Nat) : List Nat := bs.takeWhile (fun b => b != 0)

/-- Python `file.read(n)`: a negative argument reads the whole rest of
the stream, otherwise up to `n` bytes are returned (and consumed). -/
def pyRead (src : List Nat) (n : Int) : List Nat :=
  if n < 0 then src else src.take n.toNat

/-- The loop body of `read_file_in_chunks` (src/tar.py lines 132-146),
modelled on a stream that is the list of not-yet-consumed bytes.  Each
iteration reads `file_size - read_bytes` bytes once fewer than
`chunk_size` bytes remain to be transferred (the comparison is Python
integer arithmetic, hence `Int`), otherwise `chunk_size` bytes; an
empty read ends the generator.  Returns the yielded chunks and the
remaining stream; `fuel` bounds the number of iterations and is never
exhausted when it exceeds the stream length. -/
def read_file_in_chunks_go (fuel : Nat) (src : List Nat)
    (read_bytes file_size chunk_size : Nat) : List (List Nat) × List Nat :=
  match fuel with
  | 0 => ([], src)
  | fuel + 1 =>
    let chunk :=
      if (read_bytes : Int) > (file_size : Int) - (chunk_size : Int) then
        pyRead src ((file_size : Int) - (read_bytes : Int))
      else
        pyRead src (chunk_size : Int)
    if chunk.isEmpty then ([], src)
    else
      let rec_result := read_file_in_chunks_go fuel (src.drop chunk.length)
        (read_bytes + chunk.length) file_size chunk_size
      (chunk :: rec_result.1, rec_result.2)

/-- The generator `read_file_in_chunks(in_file, file_size, chunk_size)`
run to completion: the list of yielded chunks (the source default for
`chunk_size` is 8 * 1024; callers here pass it explicitly). -/
def read_file_in_chunks (src : List Nat) (file_size : Nat)
    (chunk_size : Nat) : List (List Nat) :=
  (read_file_in_chunks_go (src.length + 1) src 0 file_size chunk_size).1

/-- File kinds distinguished by the `stat.S_IS*` tests of src/tar.py
lines 225-238 (plus `sock` for kinds the code does not test). -/
inductive FileKind where
  | reg | lnk | chr | blk | dir | fifo | sock
deriving DecidableEq

/-- Result of the system calls the classifier makes for one path.
`lnk` records whether the path itself is a symbolic link (the lstat
view).  `kind`, `dev` and `ino` are the results of `os.stat(path)`,
which follows symbolic links, so for a resolvable symlink they
describe the final target; POSIX `stat` never reports `lnk` as the
kind.  `realpathDev` and `realpathIno` come from
`os.stat(os.path.realpath(path))`. -/
structure PathStat where
  lnk : Bool
  kind : FileKind
  dev : Nat
  ino : Nat
  realpathDev : Nat
  realpathIno : Nat
deriving DecidableEq

/-- The `is_hard_link` check of src/tar.py lines 112-120: it tests
`S_ISLNK` on the mode returned by `os.stat(filename)` (which follows
symlinks), and only then compares device and inode numbers with the
stat of the resolved path. -/
def is_hard_link (p : PathStat) : Bool :=
  if ¬ (p.kind = FileKind.lnk) then false
  else (p.dev = p.realpathDev && p.ino = p.realpathIno : Bool)

/-- Typeflag bytes of src/tar.py lines 22-30, as ASCII codes. -/
def TAR_TYPE_REGULAR_FILE : Nat := 48
def TAR_TYPE_HARDLINK : Nat := 49
def TAR_TYPE_SYMLINK : Nat := 50
def TAR_TYPE_CHAR : Nat := 51
def TAR_TYPE_BLOCK : Nat := 52
def TAR_TYPE_DIR : Nat := 53
def TAR_TYPE_FIFO : Nat := 54

/-- The classifier of `add` (src/tar.py lines 220-238): dispatches on
the mode bits of `file_stat = os.stat(filename)` (line 223, follows
symlinks).  Returns the typeflag (`none` is the initial empty string,
kept for kinds with no matching branch) and the linkname, which is
set to `os.path.realpath(filename)` only inside the `S_ISLNK`
branch. -/
def classify (p : PathStat) (realpath : List Nat) : Option Nat × List Nat :=
  if p.kind = FileKind.reg then (some TAR_TYPE_REGULAR_FILE, [])
  else if p.kind = FileKind.lnk then
    (if is_hard_link p then some TAR_TYPE_HARDLINK else some TAR_TYPE_SYMLINK, realpath)
  else if p.kind = FileKind.chr then (some TAR_TYPE_CHAR, [])
  else if p.kind = FileKind.blk then (some TAR_TYPE_BLOCK, [])
  else if p.kind = FileKind.dir then (some TAR_TYPE_DIR, [])
  else if p.kind = FileKind.fifo then (some TAR_TYPE_FIFO, [])
  else (none, [])

/-- Everything `add` (src/tar.py lines 207-274) reads about the entry
it archives: the encoded filename, the `os.stat` numbers, the typeflag
and linkname produced by the classifier, the owner and group names,
and the byte content that `open(filename).read` would deliver
(`st_size` also stands for `os.path.getsize(filename)`, which is the
same stat value). -/
structure EntryMeta where
  filename : List Nat
  st_mode : Nat
  st_uid : Nat
  st_gid : Nat
  st_size : Nat
  st_mtime : Nat
  typeflag : Option Nat
  linkname : List Nat
  username : List Nat
  group : List Nat
  content : List Nat
deriving DecidableEq

/-- The value written into the size field (src/tar.py line 247):
`file_stat.st_size if typeflag != TAR_TYPE_DIR else 0`. -/
def sizeVal (m : EntryMeta) : Nat :=
  if m.typeflag = some TAR_TYPE_DIR then 0 else m.st_size

/-- The magic field value `"ustar\x00"`. -/
def ustarMagic : List Nat := [117, 115, 116, 97, 114, 0]

/-- The devmajor/devminor placeholder `"0000000\x00"`. -/
def devNumberField : List Nat := [48, 48, 48, 48, 48, 48, 48, 0]

/-- The header construction of `add` (src/tar.py lines 242-261): each
field is assigned in source order through the ctypes setter (`none`
models the ValueError a too-long byte string raises), the checksum
field is first filled with eight spaces, the checksum is computed over
the full record, and the checksum field is finally overwritten with
its six-digit octal rendering. -/
def encode_header (m : EntryMeta) : Option TarHeader :=
  match setField 100 (m.filename.take 99) with
  | none => none
  | some nameF =>
  match setField 8 (fmtOctal 7 (m.st_mode &&& 511)) with
  | none => none
  | some modeF =>
  match setField 8 (fmtOctal 7 m.st_uid) with
  | none => none
  | some uidF =>
  match setField 8 (fmtOctal 7 m.st_gid) with
  | none => none
  | some gidF =>
  match setField 12 (fmtOctal 11 (sizeVal m)) with
  | none => none
  | some sizeF =>
  match setField 12 (octBytes m.st_mtime) with
  | none => none
  | some mtimeF =>
  match setField 8 (List.replicate 8 32) with
  | none => none
  | some chksum0 =>
  match setCharField m.typeflag with
  | none => none
  | some typeflagF =>
  match setField 100 (m.linkname.take 99) with
  | none => none
  | some linknameF =>
  match setField 6 ustarMagic with
  | none => none
  | some magicF =>
  match setField 2 [48, 48] with
  | none => none
  | some versionF =>
  match setField 32 (m.username.take 32) with
  | none => none
  | some unameF =>
  match setField 32 m.group with
  | none => none
  | some gnameF =>
  match setField 8 devNumberField with
  | none => none
  | some devmajorF =>
  match setField 8 devNumberField with
  | none => none
  | some devminorF =>
  match setField 155 [] with
  | none => none
  | some prefixF =>
  match setField 12 [] with
  | none => none
  | some padF =>
  let h0 : TarHeader := ⟨nameF, modeF, uidF, gidF, sizeF, mtimeF, chksum0, typeflagF,
    linknameF, magicF, versionF, unameF, gnameF, devmajorF, devminorF, prefixF, padF⟩
  let cks := get_header_checksum (serializeTarHeader h0)
  match setField 8 (fmtOctal 6 cks) with
  | none => none
  | some chksumF =>
  some ⟨nameF, modeF, uidF, gidF, sizeF, mtimeF, chksumF, typeflagF,
    linknameF, magicF, versionF, unameF, gnameF, devmajorF, devminorF, prefixF, padF⟩

/-- The bytes `add` (src/tar.py lines 240-274) appends to the archive
for one entry: the 512-byte header, then - only for regular files,
hard links and symlinks of nonzero size - the file content streamed
through `read_file_in_chunks`, then NUL padding whose length is
computed from `file_size = os.path.getsize(filename)` regardless of
the typeflag (line 273). -/
def addBytes (m : EntryMeta) : Option (List Nat) :=
  match encode_header m with
  | none => none
  | some h =>
    let record := serializeTarHeader h
    let file_size := m.st_size
    let data :=
      if (m.typeflag = some TAR_TYPE_REGULAR_FILE ∨ m.typeflag = some TAR_TYPE_HARDLINK ∨
          m.typeflag = some TAR_TYPE_SYMLINK) ∧ file_size ≠ 0 then
        (read_file_in_chunks m.content file_size (8 * 1024)).flatten
      else []
    some (record ++ data ++ List.replicate (ceilBlocks file_size - file_size) 0)

/-- The result flag of `create` (src/tar.py lines 149-171): `False`
when the root path does not exist; otherwise it starts as `True` and
is only ever updated with `result |= add(...)`, one OR per add call. -/
def create_result (rootExists : Bool) (addResults : List Bool) : Bool :=
  if rootExists = false then false
  else addResults.foldl (fun r a => r || a) true

/-- The two-argument `os.path.join(a, b)` on POSIX paths (as used in
src/tar.py line 189), on encoded path bytes: a component starting with
the separator 47 replaces the accumulated path; otherwise it is
appended, inserting a separator unless the accumulated path is empty
or already ends with one. -/
def posix_join (a b : List Nat) : List Nat :=
  if b.headD 0 = 47 then b
  else if a.isEmpty || a.getLast? = some 47 then a ++ b
  else a ++ 47 :: b

/-- The output path computed by `extract` (src/tar.py line 189):
`os.path.join(dest_path, name)`. -/
def extract_out_path (dest_path name : List Nat) : List Nat :=
  posix_join dest_path name

/-- Filesystem effects materialised by `extract`: a file created by
`open(out_path, "wb")` and filled with the streamed bytes (no mode is
ever applied to it), or a directory created by `os.makedirs`. -/
inductive FsAction where
  | writeFile (path : List Nat) (content : List Nat)
  | makeDir (path : List Nat)
deriving DecidableEq

/-- One `in_file.readinto(tar_header)` (src/tar.py line 184) at the
start of the remaining archive bytes: up to 512 bytes are copied and
the rest of the freshly zero-initialised header stays NUL, so the
record in memory is the available prefix padded with zeros to 512. -/
def readRecord (bs : List Nat) : List Nat :=
  bs.take 512 ++ List.replicate (512 - bs.length) 0

/-- The scan loop of `extract` (src/tar.py lines 181-203) over the
archive bytes, returning the filesystem actions it performs in order,
or `none` when a header field fails to parse (a raised exception).
Per iteration: read a record, stop when the NUL-terminated name is
empty, parse the octal size field, join the destination with the
name; for typeflag regular or its NUL alias stream `file_size` bytes
out of the archive through `read_file_in_chunks` into the new file;
for typeflag directory make the directory; every other typeflag
materialises nothing and skips no data; finally skip the padding
computed from `file_size`.  `fuel` bounds the iterations and is never
exhausted when it exceeds the byte count. -/
def extract_go (fuel : Nat) (dest_path bs : List Nat) : Option (List FsAction) :=
  match fuel with
  | 0 => none
  | fuel + 1 =>
    let record := readRecord bs
    let name := cstr (record.take 100)
    if name.isEmpty then some []
    else
      match parseOctal (cstr ((record.drop 124).take 12)) with
      | none => none
      | some file_size =>
        let out_path := extract_out_path dest_path name
        let typeflag := (record.drop 156).headD 0
        let rest := bs.drop 512
        let padding_size := ceilBlocks file_size - file_size
        if typeflag = TAR_TYPE_REGULAR_FILE ∨ typeflag = 0 then
          let rc := read_file_in_chunks_go (rest.length + 1) rest 0 file_size (8 * 1024)
          match extract_go fuel dest_path (rc.2.drop padding_size) with
          | none => none
          | some acts => some (FsAction.writeFile out_path rc.1.flatten :: acts)
        else if typeflag = TAR_TYPE_DIR then
          match extract_go fuel dest_path (rest.drop padding_size) with
          | none => none
          | some acts => some (FsAction.makeDir out_path :: acts)
        else
          extract_go fuel dest_path (rest.drop padding_size)

/-- The whole of `extract(archive, dest_path)` on an archive given as
its byte content. -/
def extract (dest_path bs : List Nat) : Option (List FsAction) :=
  extract_go (bs.length + 1) dest_path bs

/-- One line printed by `list_content` (src/tar.py lines 287-295):
the parsed numeric fields, the typeflag byte and the name.  Every
component below feeds the printed line; the line formatting itself
(permission string rendering, timestamp rendering, linkname arrow) is
not modelled. -/
structure ListedEntry where
  mode : Nat
  uid : Nat
  gid : Nat
  size : Nat
  mtime : Nat
  typeflag : Nat
  name : List Nat
deriving DecidableEq

/-- The scan loop of `list_content` (src/tar.py lines 279-299),
returning one entry per printed line, or `none` when an octal field
fails to parse (`int(..., 8)` raising on the mode, uid, gid, size or
mtime field).  After printing, `file_size` data bytes and the padding
are read and discarded. -/
def list_entries_go (fuel : Nat) (bs : List Nat) : Option (List ListedEntry) :=
  match fuel with
  | 0 => none
  | fuel + 1 =>
    let record := readRecord bs
    let name := cstr (record.take 100)
    if name.isEmpty then some []
    else
      match parseOctal (cstr ((record.drop 124).take 12)) with
      | none => none
      | some file_size =>
      match parseOctal (cstr ((record.drop 100).take 8)) with
      | none => none
      | some mode =>
      match parseOctal (cstr ((record.drop 108).take 8)) with
      | none => none
      | some uid =>
      match parseOctal (cstr ((record.drop 116).take 8)) with
      | none => none
      | some gid =>
      match parseOctal (cstr ((record.drop 136).take 12)) with
      | none => none
      | some mtime =>
        let e : ListedEntry :=
          ⟨mode, uid, gid, file_size, mtime, (record.drop 156).headD 0, name⟩
        let rest := ((bs.drop 512).drop file_size).drop (ceilBlocks file_size - file_size)
        match list_entries_go fuel rest with
        | none => none
        | some es => some (e :: es)

/-- The whole of `list_content(archive)` on an archive given as its
byte content. -/
def list_entries (bs : List Nat) : Option (List ListedEntry) :=
  list_entries_go (bs.length + 1) bs

/-- The header a successful `encode_header` run computes just before
the checksum field is overwritten: every field NUL-padded to width,
checksum still eight spaces. -/
def headerOf0 (m : EntryMeta) (tfb : Nat) : TarHeader :=
  ⟨padTo 100 (m.filename.take 99), padTo 8 (fmtOctal 7 (m.st_mode &&& 511)),
   padTo 8 (fmtOctal 7 m.st_uid), padTo 8 (fmtOctal 7 m.st_gid),
   padTo 12 (fmtOctal 11 (sizeVal m)), padTo 12 (octBytes m.st_mtime),
   padTo 8 (List.replicate 8 32), [tfb], padTo 100 (m.linkname.take 99),
   padTo 6 ustarMagic, padTo 2 [48, 48], padTo 32 (m.username.take 32),
   padTo 32 m.group, padTo 8 devNumberField, padTo 8 devNumberField,
   padTo 155 [], padTo 12 []⟩

/-- The header a successful `encode_header` run returns: `headerOf0`
with the checksum field overwritten by the octal checksum of the
spaces-checksum record. -/
def headerOf (m : EntryMeta) (tfb : Nat) : TarHeader :=
  ⟨padTo 100 (m.filename.take 99), padTo 8 (fmtOctal 7 (m.st_mode &&& 511)),
   padTo 8 (fmtOctal 7 m.st_uid), padTo 8 (fmtOctal 7 m.st_gid),
   padTo 12 (fmtOctal 11 (sizeVal m)), padTo 12 (octBytes m.st_mtime),
   padTo 8 (fmtOctal 6 (get_header_checksum (serializeTarHeader (headerOf0 m tfb)))),
   [tfb], padTo 100 (m.linkname.take 99),
   padTo 6 ustarMagic, padTo 2 [48, 48], padTo 32 (m.username.take 32),
   padTo 32 m.group, padTo 8 devNumberField, padTo 8 devNumberField,
   padTo 155 [], padTo 12 []⟩

/-- The archive bytes `create` followed by `add` produce for a single
regular file: the truncated archive holds exactly the one appended
entry. -/
def regArchiveOf (m : EntryMeta) : List Nat :=
  serializeTarHeader (headerOf m TAR_TYPE_REGULAR_FILE) ++ m.content ++
    List.replicate (ceilBlocks m.st_size - m.st_size) 0

/-- The same entry metadata with a different permission mode (the rest
of the stat result unchanged). -/
def setStMode (m : EntryMeta) (mode : Nat) : EntryMeta :=
  ⟨m.filename, mode, m.st_uid, m.st_gid, m.st_size, m.st_mtime, m.typeflag,
   m.linkname, m.username, m.group, m.content⟩


/-- Length of every serialised field is its declared width. -/
theorem fieldBytes_length (w : Nat) (v : List Nat) : (fieldBytes w v).length = w := by
  simp only [fieldBytes, List.length_append, List.length_take, List.length_replicate]
  omega

/-- Serialised headers always occupy exactly 512 bytes. -/
theorem serializeTarHeader_length (h : TarHeader) : (serializeTarHeader h).length = 512 := by
  simp [serializeTarHeader, fieldBytes_length]

/-- C3: the header checksum function returns the sum of the unsigned
byte values of the full 512-byte record; it returns 0 for the record of
a zero-initialised header and 256 when the checksum field holds eight
space characters and every other byte is zero. -/
theorem C3_checksum_sum_of_record :
    (∀ h : TarHeader, (serializeTarHeader h).length = 512 ∧
      get_header_checksum (serializeTarHeader h) = (serializeTarHeader h).sum) ∧
    get_header_checksum (serializeTarHeader TarHeader.zeroed) = 0 ∧
    get_header_checksum (serializeTarHeader TarHeader.spacesChksum) = 256 := by
  refine ⟨fun h => ⟨serializeTarHeader_length h, rfl⟩, by decide, by decide⟩

theorem octDigitsAux_eq (fuel n : Nat) (h : n ≤ fuel) :
    octDigitsAux fuel n = Nat.digits 8 n := by
  induction fuel generalizing n with
  | zero =>
    interval_cases n
    simp [octDigitsAux]
  | succ fuel ih =>
    match n with
    | 0 => simp [octDigitsAux]
    | k + 1 =>
      rw [octDigitsAux, Nat.digits_def' (by norm_num : (1:Nat) < 8) (Nat.succ_pos k)]
      congr 1
      exact ih ((k + 1) / 8) (by
        have := Nat.div_lt_self (Nat.succ_pos k) (by norm_num : (1:Nat) < 8)
        omega)

/-- The fuel-based rendering agrees with the mathematical digit list. -/
theorem octBytes_eq_digits (n : Nat) :
    octBytes n = if n = 0 then [48] else ((Nat.digits 8 n).map (fun d => d + 48)).reverse := by
  unfold octBytes
  by_cases h : n = 0
  · simp [h]
  · simp [h, octDigitsAux_eq n n (le_refl n)]

theorem octBytes_all_digits (n : Nat) : ∀ b ∈ octBytes n, 48 ≤ b ∧ b ≤ 55 := by
  intro b hb
  rw [octBytes_eq_digits] at hb
  by_cases h : n = 0
  · simp [h] at hb
    omega
  · simp [h, List.mem_reverse, List.mem_map] at hb
    obtain ⟨d, hd, rfl⟩ := hb
    have := Nat.digits_lt_base (by norm_num) hd
    omega

theorem octBytes_ne_nil (n : Nat) : octBytes n ≠ [] := by
  rw [octBytes_eq_digits]
  by_cases h : n = 0
  · simp [h]
  · simp [h, Nat.digits_ne_nil_iff_ne_zero]

/-- The number of octal digits of `n` is at most `k` exactly when
`n < 8 ^ k` (for `k ≥ 1`). -/
theorem octBytes_length_le_iff (n k : Nat) (hk : 1 ≤ k) :
    (octBytes n).length ≤ k ↔ n < 8 ^ k := by
  by_cases h : n = 0
  · subst h
    simp [octBytes_eq_digits, hk, Nat.pos_pow_of_pos]
  · rw [octBytes_eq_digits]
    simp only [h, if_false, List.length_reverse, List.length_map]
    constructor
    · intro hlen
      calc n < 8 ^ (Nat.digits 8 n).length := Nat.lt_base_pow_length_digits (by norm_num)
        _ ≤ 8 ^ k := Nat.pow_le_pow_right (by norm_num) hlen
    · intro hn
      by_contra hgt
      push_neg at hgt
      have h1 : 8 ^ (Nat.digits 8 n).length ≤ 8 * n :=
        Nat.base_pow_length_digits_le 8 n (by norm_num) h
      have h2 : 8 ^ (k + 1) ≤ 8 ^ (Nat.digits 8 n).length :=
        Nat.pow_le_pow_right (by norm_num) hgt
      have h3 : 8 * 8 ^ k ≤ 8 * n := by
        calc 8 * 8 ^ k = 8 ^ (k + 1) := by ring
          _ ≤ 8 ^ (Nat.digits 8 n).length := h2
          _ ≤ 8 * n := h1
      omega

theorem fmtOctal_length (w n : Nat) :
    (fmtOctal w n).length = max w (octBytes n).length := by
  simp only [fmtOctal, List.length_append, List.length_replicate]
  omega

theorem fmtOctal_all_digits (w n : Nat) : ∀ b ∈ fmtOctal w n, 48 ≤ b ∧ b ≤ 55 := by
  intro b hb
  simp only [fmtOctal, List.mem_append, List.mem_replicate] at hb
  rcases hb with h | h
  · omega
  · exact octBytes_all_digits n b h

theorem foldl_oct_zeros (k a : Nat) :
    List.foldl (fun a b => a * 8 + (b - 48)) a (List.replicate k 48) = a * 8 ^ k := by
  induction k generalizing a with
  | zero => simp
  | succ k ih =>
    rw [List.replicate_succ, List.foldl_cons, ih]
    ring_nf

theorem foldl_oct_digits (L : List Nat) :
    List.foldl (fun a b => a * 8 + (b - 48)) 0 ((L.map (fun d => d + 48)).reverse) =
      Nat.ofDigits 8 L := by
  induction L with
  | nil => simp [Nat.ofDigits]
  | cons d L ih =>
    simp only [List.map_cons, List.reverse_cons, List.foldl_append, List.foldl_cons,
      List.foldl_nil, ih, Nat.ofDigits_cons]
    omega

/-- Parsing the octal rendering recovers the value, regardless of the
zero padding width. -/
theorem parseOctal_fmtOctal (w n : Nat) : parseOctal (fmtOctal w n) = some n := by
  have hne : fmtOctal w n ≠ [] := by
    simp only [fmtOctal]
    intro h
    rcases List.append_eq_nil.mp h with ⟨-, h2⟩
    exact octBytes_ne_nil n h2
  have hall : (fmtOctal w n).all isOctDigit = true := by
    rw [List.all_eq_true]
    intro b hb
    have := fmtOctal_all_digits w n b hb
    simp [isOctDigit]
    omega
  unfold parseOctal
  rw [if_neg (by simpa [List.isEmpty_iff] using hne), if_pos hall]
  congr 1
  unfold fmtOctal
  rw [octBytes_eq_digits]
  by_cases h : n = 0
  · subst h
    simp only [if_pos rfl]
    rw [List.foldl_append, foldl_oct_zeros]
    simp
  · simp only [h, if_false]
    rw [List.foldl_append, foldl_oct_zeros, Nat.zero_mul, foldl_oct_digits,
      Nat.ofDigits_digits]

/-- Zero-padded octal with the digits in range never contains a NUL,
so reading it back from a wider NUL-padded field stops exactly at the
end of the rendered text. -/
theorem cstr_padTo_fmtOctal (w w2 n : Nat) :
    cstr (padTo w2 (fmtOctal w n)) = fmtOctal w n := by
  unfold cstr padTo
  rw [List.takeWhile_append_of_pos, List.takeWhile_replicate]
  · simp
  · intro b hb
    have := fmtOctal_all_digits w n b hb
    simp
    omega

theorem le_ceilBlocks (n : Nat) : n ≤ ceilBlocks n := by
  unfold ceilBlocks
  have h1 := Nat.div_add_mod (n + 511) 512
  have h2 : (n + 511) % 512 < 512 := Nat.mod_lt _ (by norm_num)
  omega

theorem ceilBlocks_eq_of_mod (n : Nat) (h : n % 512 = 0) : ceilBlocks n = n := by
  obtain ⟨k, rfl⟩ := Nat.dvd_of_mod_eq_zero h
  unfold ceilBlocks
  rw [Nat.add_comm, Nat.add_mul_div_left _ _ (by norm_num : (0:Nat) < 512)]
  simp [Nat.div_eq_of_lt, Nat.mul_comm]

/-- Behaviour of the chunk loop on a stream holding at least the
requested bytes: the chunks concatenate to exactly the requested
prefix, the stream is left positioned right after it, and every chunk
is nonempty of size at most `chunk_size`. -/
theorem read_file_in_chunks_go_spec (fuel : Nat) (src : List Nat)
    (read_bytes file_size chunk_size : Nat)
    (hcs : 0 < chunk_size) (hrb : read_bytes ≤ file_size)
    (hsrc : file_size - read_bytes ≤ src.length) (hfuel : src.length < fuel) :
    (read_file_in_chunks_go fuel src read_bytes file_size chunk_size).1.flatten =
      src.take (file_size - read_bytes) ∧
    (read_file_in_chunks_go fuel src read_bytes file_size chunk_size).2 =
      src.drop (file_size - read_bytes) ∧
    ∀ c ∈ (read_file_in_chunks_go fuel src read_bytes file_size chunk_size).1,
      c.length ≤ chunk_size ∧ c ≠ [] := by
  induction fuel generalizing src read_bytes with
  | zero => omega
  | succ fuel ih =>
    by_cases hlast : (read_bytes : Int) > (file_size : Int) - (chunk_size : Int)
    · -- final-read branch: the remaining byte count is below chunk_size
      have hreq : pyRead src ((file_size : Int) - (read_bytes : Int)) =
          src.take (file_size - read_bytes) := by
        unfold pyRead
        rw [if_neg (by omega), ← Int.natCast_sub hrb, Int.toNat_natCast]
      by_cases hdone : file_size - read_bytes = 0
      · rw [read_file_in_chunks_go, if_pos hlast, hreq, hdone]
        simp
      · have hchunk : (src.take (file_size - read_bytes)).length = file_size - read_bytes := by
          rw [List.length_take]
          omega
        have hne : ¬ (src.take (file_size - read_bytes)).isEmpty = true := by
          rw [List.isEmpty_iff, ← List.length_eq_zero]
          omega
        rw [read_file_in_chunks_go]
        simp only [if_pos hlast, hreq, if_neg hne]
        have hrec := ih (src.drop (src.take (file_size - read_bytes)).length)
          (read_bytes + (src.take (file_size - read_bytes)).length)
          (by omega) (by simp [List.length_drop]; omega)
          (by simp [List.length_drop]; omega)
        rw [hchunk] at hrec ⊢
        have hz : file_size - (read_bytes + (file_size - read_bytes)) = 0 := by omega
        rw [hz] at hrec
        obtain ⟨h1, h2, h3⟩ := hrec
        refine ⟨?_, ?_, ?_⟩
        · rw [List.flatten_cons, h1]
          simp
        · rw [h2]
          simp
        · intro c hc
          rcases List.mem_cons.mp hc with rfl | hc
          · constructor
            · rw [hchunk]; omega
            · intro h; rw [h] at hchunk; simp at hchunk; omega
          · exact h3 c hc
    · -- full-chunk branch: at least chunk_size bytes remain
      have hreq : pyRead src (chunk_size : Int) = src.take chunk_size := by
        unfold pyRead
        rw [if_neg (by omega), Int.toNat_natCast]
      have hcsle : chunk_size ≤ file_size - read_bytes := by omega
      have hchunk : (src.take chunk_size).length = chunk_size := by
        rw [List.length_take]
        omega
      have hne : ¬ (src.take chunk_size).isEmpty = true := by
        rw [List.isEmpty_iff, ← List.length_eq_zero]
        omega
      rw [read_file_in_chunks_go]
      simp only [if_neg hlast, hreq, if_neg hne]
      have hrec := ih (src.drop (src.take chunk_size).length)
        (read_bytes + (src.take chunk_size).length)
        (by rw [hchunk]; omega)
        (by rw [hchunk]; simp [List.length_drop]; omega)
        (by rw [hchunk]; simp [List.length_drop]; omega)
      rw [hchunk] at hrec ⊢
      obtain ⟨h1, h2, h3⟩ := hrec
      have harith : file_size - (read_bytes + chunk_size) = (file_size - read_bytes) - chunk_size := by
        omega
      refine ⟨?_, ?_, ?_⟩
      · rw [List.flatten_cons, h1, harith, List.take_drop]
        have hsum : chunk_size + (file_size - read_bytes - chunk_size) =
            file_size - read_bytes := by omega
        rw [hsum]
        conv_rhs => rw [← List.take_append_drop chunk_size
          (List.take (file_size - read_bytes) src)]
        congr 1
        rw [List.take_take, Nat.min_eq_left (by omega)]
      · rw [h2, List.drop_drop, harith]
        congr 1
        omega
      · intro c hc
        rcases List.mem_cons.mp hc with rfl | hc
        · constructor
          · rw [hchunk]
          · intro h; rw [h] at hchunk; simp at hchunk; omega
        · exact h3 c hc


theorem setField_of_le {w : Nat} {v : List Nat} (h : v.length ≤ w) :
    setField w v = some (padTo w v) := by
  unfold setField
  rw [if_neg (by omega)]

theorem setField_of_gt {w : Nat} {v : List Nat} (h : v.length > w) :
    setField w v = none := by
  unfold setField
  rw [if_pos h]

theorem padTo_length {w : Nat} {v : List Nat} (h : v.length ≤ w) :
    (padTo w v).length = w := by
  simp only [padTo, List.length_append, List.length_replicate]
  omega

theorem fieldBytes_of_length_le {w : Nat} {v : List Nat} (h : v.length ≤ w) :
    fieldBytes w v = padTo w v := by
  simp only [fieldBytes, padTo, List.take_of_length_le h]

theorem padTo_of_length_eq {w : Nat} {u : List Nat} (h : u.length = w) :
    padTo w u = u := by
  simp [padTo, h]

theorem fieldBytes_padTo (w : Nat) (v : List Nat) (hv : v.length ≤ w) :
    fieldBytes w (padTo w v) = padTo w v := by
  rw [fieldBytes_of_length_le (le_of_eq (padTo_length hv)),
    padTo_of_length_eq (padTo_length hv)]

theorem mem_padTo {w : Nat} {v : List Nat} {b : Nat} (hb : b ∈ padTo w v) :
    b ∈ v ∨ b = 0 := by
  simp only [padTo, List.mem_append, List.mem_replicate] at hb
  tauto

theorem mem_fieldBytes {w : Nat} {v : List Nat} {b : Nat} (hb : b ∈ fieldBytes w v) :
    b ∈ v ∨ b = 0 := by
  simp only [fieldBytes, List.mem_append, List.mem_replicate] at hb
  rcases hb with h | h
  · exact Or.inl (List.mem_of_mem_take h)
  · exact Or.inr h.2

theorem cstr_append_of_ne {l₁ l₂ : List Nat} (h : ∀ b ∈ l₁, b ≠ 0) :
    cstr (l₁ ++ l₂) = l₁ ++ cstr l₂ := by
  unfold cstr
  rw [List.takeWhile_append_of_pos]
  intro a ha
  simpa using h a ha

theorem cstr_replicate_zero (k : Nat) : cstr (List.replicate k 0) = [] := by
  unfold cstr
  rw [List.takeWhile_replicate]
  simp

theorem cstr_padTo {w : Nat} {v : List Nat} (h : ∀ b ∈ v, b ≠ 0) :
    cstr (padTo w v) = v := by
  unfold padTo
  rw [cstr_append_of_ne h, cstr_replicate_zero, List.append_nil]

/-- The name field occupies the first 100 record bytes. -/
theorem serialize_name_field (h : TarHeader) :
    (serializeTarHeader h).take 100 = fieldBytes 100 h.name := by
  unfold serializeTarHeader
  simp only [List.append_assoc]
  rw [List.take_left' (fieldBytes_length 100 h.name)]

/-- The size field occupies record bytes 124 to 135. -/
theorem serialize_size_field (h : TarHeader) :
    ((serializeTarHeader h).drop 124).take 12 = fieldBytes 12 h.size := by
  unfold serializeTarHeader
  simp only [List.append_assoc]
  rw [← List.append_assoc, ← List.append_assoc, ← List.append_assoc]
  rw [List.drop_left' (by simp [List.length_append, fieldBytes_length])]
  rw [List.take_left' (fieldBytes_length 12 h.size)]

/-- The typeflag is the record byte at offset 156. -/
theorem serialize_typeflag_field (h : TarHeader) :
    ((serializeTarHeader h).drop 156).headD 0 = (fieldBytes 1 h.typeflag).headD 0 := by
  unfold serializeTarHeader
  simp only [List.append_assoc]
  rw [← List.append_assoc, ← List.append_assoc, ← List.append_assoc,
    ← List.append_assoc, ← List.append_assoc, ← List.append_assoc]
  rw [List.drop_left' (by simp [List.length_append, fieldBytes_length])]
  have hne : fieldBytes 1 h.typeflag ≠ [] := by
    intro he
    have := fieldBytes_length 1 h.typeflag
    rw [he] at this
    simp at this
  obtain ⟨b, l, he⟩ := List.exists_cons_of_ne_nil hne
  rw [he]
  simp

/-- Scanning an exhausted stream: `readinto` leaves the fresh header
all zeros, the name is empty, and both loops stop at once. -/
theorem extract_go_nil (fuel : Nat) (dest_path : List Nat) (hf : 1 ≤ fuel) :
    extract_go fuel dest_path [] = some [] := by
  match fuel, hf with
  | fuel + 1, _ =>
    unfold extract_go readRecord
    simp only [List.take_nil, List.length_nil, Nat.sub_zero, List.nil_append]
    rw [List.take_replicate]
    have h100 : cstr (List.replicate (min 100 512) 0) = [] := cstr_replicate_zero _
    rw [h100]
    simp

theorem list_entries_go_nil (fuel : Nat) (hf : 1 ≤ fuel) :
    list_entries_go fuel [] = some [] := by
  match fuel, hf with
  | fuel + 1, _ =>
    unfold list_entries_go readRecord
    simp only [List.take_nil, List.length_nil, Nat.sub_zero, List.nil_append]
    rw [List.take_replicate]
    have h100 : cstr (List.replicate (min 100 512) 0) = [] := cstr_replicate_zero _
    rw [h100]
    simp

theorem fmtOctal_length_le {w k n : Nat} (hk : 1 ≤ k) (h : n < 8 ^ k) :
    (fmtOctal w n).length ≤ max w k := by
  rw [fmtOctal_length]
  have := (octBytes_length_le_iff n k hk).mpr h
  omega

/-- A successful run of the header encoder: when every numeric field
fits, the typeflag is a single byte and the group name fits its field,
the encoder returns exactly the NUL-padded header `headerOf`. -/
theorem encode_header_success (m : EntryMeta) (tfb : Nat)
    (htf : m.typeflag = some tfb)
    (huid : m.st_uid < 8 ^ 8) (hgid : m.st_gid < 8 ^ 8)
    (hsize : sizeVal m < 8 ^ 12) (hmtime : m.st_mtime < 8 ^ 12)
    (hgroup : m.group.length ≤ 32)
    (hcks : get_header_checksum (serializeTarHeader (headerOf0 m tfb)) < 8 ^ 8) :
    encode_header m = some (headerOf m tfb) := by
  have hname : (m.filename.take 99).length ≤ 100 := by
    rw [List.length_take]; omega
  have hmode : (fmtOctal 7 (m.st_mode &&& 511)).length ≤ 8 := by
    have hb : m.st_mode &&& 511 < 8 ^ 3 :=
      lt_of_le_of_lt Nat.and_le_right (by norm_num)
    have := fmtOctal_length_le (w := 7) (by norm_num) hb
    omega
  have huid2 : (fmtOctal 7 m.st_uid).length ≤ 8 := by
    have := fmtOctal_length_le (w := 7) (by norm_num) huid
    omega
  have hgid2 : (fmtOctal 7 m.st_gid).length ≤ 8 := by
    have := fmtOctal_length_le (w := 7) (by norm_num) hgid
    omega
  have hsize2 : (fmtOctal 11 (sizeVal m)).length ≤ 12 := by
    have := fmtOctal_length_le (w := 11) (by norm_num) hsize
    omega
  have hmtime2 : (octBytes m.st_mtime).length ≤ 12 :=
    (octBytes_length_le_iff _ 12 (by norm_num)).mpr hmtime
  have hlink : (m.linkname.take 99).length ≤ 100 := by
    rw [List.length_take]; omega
  have huser : (m.username.take 32).length ≤ 32 := by
    rw [List.length_take]; omega
  have hcks2 : (fmtOctal 6
      (get_header_checksum (serializeTarHeader (headerOf0 m tfb)))).length ≤ 8 := by
    have := fmtOctal_length_le (w := 6) (by norm_num) hcks
    omega
  simp only [headerOf0] at hcks2
  simp only [encode_header, htf,
    setField_of_le hname, setField_of_le hmode, setField_of_le huid2,
    setField_of_le hgid2, setField_of_le hsize2, setField_of_le hmtime2,
    setField_of_le (show (List.replicate 8 32).length ≤ 8 by simp),
    setCharField,
    setField_of_le hlink,
    setField_of_le (show ustarMagic.length ≤ 6 by simp [ustarMagic]),
    setField_of_le (show ([48, 48] : List Nat).length ≤ 2 by simp),
    setField_of_le huser, setField_of_le hgroup,
    setField_of_le (show devNumberField.length ≤ 8 by simp [devNumberField]),
    setField_of_le (show ([] : List Nat).length ≤ 155 by simp),
    setField_of_le (show ([] : List Nat).length ≤ 12 by simp),
    setField_of_le hcks2, headerOf, headerOf0]

theorem sum_le_of_lt_256 (l : List Nat) (h : ∀ b ∈ l, b < 256) :
    l.sum ≤ 255 * l.length := by
  induction l with
  | nil => simp
  | cons a l ih =>
    have ha := h a (List.mem_cons_self a l)
    have hl := ih (fun b hb => h b (List.mem_cons_of_mem a hb))
    simp only [List.sum_cons, List.length_cons]
    omega

/-- Every byte of the serialised spaces-checksum header is below 256
when the textual inputs are genuine bytes. -/
theorem serialize_headerOf0_bytes (m : EntryMeta) (tfb : Nat)
    (hf : ∀ b ∈ m.filename, b < 256) (hfu : ∀ b ∈ m.username, b < 256)
    (hg : ∀ b ∈ m.group, b < 256) (hl : ∀ b ∈ m.linkname, b < 256)
    (htfb : tfb < 256) :
    ∀ b ∈ serializeTarHeader (headerOf0 m tfb), b < 256 := by
  intro b hb
  simp only [serializeTarHeader, headerOf0, List.append_assoc, List.mem_append] at hb
  rcases hb with hb|hb|hb|hb|hb|hb|hb|hb|hb|hb|hb|hb|hb|hb|hb|hb|hb <;>
    (rcases mem_fieldBytes hb with h | h
     · first
       | (rcases mem_padTo h with h2 | h2
          · first
            | exact hf b (List.mem_of_mem_take h2)
            | exact hfu b (List.mem_of_mem_take h2)
            | exact hg b h2
            | exact hl b (List.mem_of_mem_take h2)
            | (have hq := fmtOctal_all_digits _ _ b h2; omega)
            | (have hq := octBytes_all_digits _ b h2; omega)
            | (simp [ustarMagic, devNumberField] at h2; omega)
            | (simp at h2; omega)
            | (simp at h2)
          · omega)
       | (simp at h; omega)
     · omega)

/-- The checksum of any genuine-byte header is far below the octal
capacity of its 8-byte field. -/
theorem headerOf0_checksum_lt (m : EntryMeta) (tfb : Nat)
    (hf : ∀ b ∈ m.filename, b < 256) (hfu : ∀ b ∈ m.username, b < 256)
    (hg : ∀ b ∈ m.group, b < 256) (hl : ∀ b ∈ m.linkname, b < 256)
    (htfb : tfb < 256) :
    get_header_checksum (serializeTarHeader (headerOf0 m tfb)) < 8 ^ 8 := by
  have hb := serialize_headerOf0_bytes m tfb hf hfu hg hl htfb
  have hs := sum_le_of_lt_256 _ hb
  rw [serializeTarHeader_length] at hs
  have hp : (8 : Nat) ^ 8 = 16777216 := by norm_num
  unfold get_header_checksum
  omega

/-- For a data-carrying typeflag whose file really holds `st_size`
bytes, `add` appends header, content and block padding. -/
theorem addBytes_data (m : EntryMeta) (h : TarHeader)
    (henc : encode_header m = some h)
    (htf : m.typeflag = some TAR_TYPE_REGULAR_FILE ∨ m.typeflag = some TAR_TYPE_HARDLINK ∨
      m.typeflag = some TAR_TYPE_SYMLINK)
    (hlen : m.content.length = m.st_size) :
    addBytes m = some (serializeTarHeader h ++ m.content ++
      List.replicate (ceilBlocks m.st_size - m.st_size) 0) := by
  simp only [addBytes, henc]
  by_cases h0 : m.st_size = 0
  · have hnil : m.content = [] := by
      rw [← List.length_eq_zero, hlen, h0]
    rw [if_neg (by simp [h0])]
    rw [hnil]
  · rw [if_pos ⟨htf, h0⟩]
    have hspec := read_file_in_chunks_go_spec (m.content.length + 1) m.content 0
      m.st_size (8 * 1024) (by norm_num) (by omega) (by omega) (by omega)
    unfold read_file_in_chunks
    rw [hspec.1]
    simp only [Nat.sub_zero]
    rw [← hlen, List.take_length]

/-- For every other typeflag no data is written, but the padding
computed from `st_size` still follows the header. -/
theorem addBytes_nodata (m : EntryMeta) (h : TarHeader)
    (henc : encode_header m = some h)
    (htf : ¬ (m.typeflag = some TAR_TYPE_REGULAR_FILE ∨ m.typeflag = some TAR_TYPE_HARDLINK ∨
      m.typeflag = some TAR_TYPE_SYMLINK)) :
    addBytes m = some (serializeTarHeader h ++
      List.replicate (ceilBlocks m.st_size - m.st_size) 0) := by
  simp only [addBytes, henc]
  rw [if_neg (by tauto)]
  simp

/-- The name stored by a successful encode reads back as the filename
(when it fits the field and contains no NUL). -/
theorem headerOf_name_cstr (m : EntryMeta) (tfb : Nat)
    (hlen : m.filename.length ≤ 99) (hnz : ∀ b ∈ m.filename, b ≠ 0) :
    cstr ((serializeTarHeader (headerOf m tfb)).take 100) = m.filename := by
  rw [serialize_name_field]
  have htake : m.filename.take 99 = m.filename := List.take_of_length_le hlen
  have hshow : (headerOf m tfb).name = padTo 100 (m.filename.take 99) := rfl
  rw [hshow, htake, fieldBytes_padTo 100 m.filename (by omega), cstr_padTo hnz]

/-- The size field of a successful encode reads back as the encoded
size value. -/
theorem headerOf_size_parse (m : EntryMeta) (tfb : Nat) (hsize : sizeVal m < 8 ^ 11) :
    parseOctal (cstr (((serializeTarHeader (headerOf m tfb)).drop 124).take 12)) =
      some (sizeVal m) := by
  rw [serialize_size_field]
  have hshow : (headerOf m tfb).size = padTo 12 (fmtOctal 11 (sizeVal m)) := rfl
  have hlen : (fmtOctal 11 (sizeVal m)).length ≤ 12 := by
    have := fmtOctal_length_le (w := 11) (by norm_num) hsize
    omega
  rw [hshow, fieldBytes_padTo 12 _ hlen, cstr_padTo_fmtOctal, parseOctal_fmtOctal]

/-- The typeflag byte of a successful encode is the classifier output. -/
theorem headerOf_typeflag (m : EntryMeta) (tfb : Nat) :
    ((serializeTarHeader (headerOf m tfb)).drop 156).headD 0 = tfb := by
  rw [serialize_typeflag_field]
  have hshow : (headerOf m tfb).typeflag = [tfb] := rfl
  rw [hshow]
  simp [fieldBytes]

theorem readRecord_of_ge (bs : List Nat) (h : 512 ≤ bs.length) :
    readRecord bs = bs.take 512 := by
  unfold readRecord
  rw [Nat.sub_eq_zero_of_le h]
  simp

/-- One pass of the extract loop over the archive a single regular
file entry produces: the scan reads the header back, streams exactly
the content into the output file at the joined path, skips the
padding and stops at the end of the archive. -/
theorem extract_go_regular (m : EntryMeta) (dest : List Nat) (fuel : Nat)
    (hfuel : 1 ≤ fuel)
    (hne : m.filename ≠ []) (hlen99 : m.filename.length ≤ 99)
    (hnz : ∀ b ∈ m.filename, b ≠ 0)
    (hsize : m.st_size < 8 ^ 11) (htf : m.typeflag = some TAR_TYPE_REGULAR_FILE)
    (hcontent : m.content.length = m.st_size) :
    extract_go (fuel + 1) dest (regArchiveOf m) =
      some [FsAction.writeFile (extract_out_path dest m.filename) m.content] := by
  have hrecl : (serializeTarHeader (headerOf m TAR_TYPE_REGULAR_FILE)).length = 512 :=
    serializeTarHeader_length _
  have hA : regArchiveOf m = serializeTarHeader (headerOf m TAR_TYPE_REGULAR_FILE) ++
      (m.content ++ List.replicate (ceilBlocks m.st_size - m.st_size) 0) := by
    unfold regArchiveOf
    rw [List.append_assoc]
  obtain ⟨A, hA0⟩ : ∃ A, regArchiveOf m = A := ⟨_, rfl⟩
  have hAlen : 512 ≤ A.length := by
    rw [← hA0, hA]
    simp [List.length_append, hrecl]
  have htake : A.take 512 = serializeTarHeader (headerOf m TAR_TYPE_REGULAR_FILE) := by
    rw [← hA0, hA, List.take_left' hrecl]
  have hdrop : A.drop 512 =
      m.content ++ List.replicate (ceilBlocks m.st_size - m.st_size) 0 := by
    rw [← hA0, hA, List.drop_left' hrecl]
  have hsv : sizeVal m = m.st_size := by
    simp [sizeVal, htf, TAR_TYPE_REGULAR_FILE, TAR_TYPE_DIR]
  have hname := headerOf_name_cstr m TAR_TYPE_REGULAR_FILE hlen99 hnz
  have hparse := headerOf_size_parse m TAR_TYPE_REGULAR_FILE (by rw [hsv]; exact hsize)
  rw [hsv] at hparse
  have htfb := headerOf_typeflag m TAR_TYPE_REGULAR_FILE
  have hrestlen : m.st_size ≤ (A.drop 512).length := by
    rw [hdrop]
    simp only [List.length_append, List.length_replicate]
    omega
  have hspec := read_file_in_chunks_go_spec ((A.drop 512).length + 1)
    (A.drop 512) 0 m.st_size (8 * 1024) (by norm_num) (by omega)
    (by omega) (by omega)
  have hflat : (read_file_in_chunks_go ((A.drop 512).length + 1)
      (A.drop 512) 0 m.st_size (8 * 1024)).1.flatten = m.content := by
    rw [hspec.1, Nat.sub_zero, hdrop, List.take_left' hcontent]
  have hrc2 : (read_file_in_chunks_go ((A.drop 512).length + 1)
      (A.drop 512) 0 m.st_size (8 * 1024)).2 =
      List.replicate (ceilBlocks m.st_size - m.st_size) 0 := by
    rw [hspec.2.1, Nat.sub_zero, hdrop, List.drop_left' hcontent]
  rw [hA0]
  simp only [extract_go]
  rw [readRecord_of_ge _ hAlen, htake, hname]
  rw [if_neg (by simp [hne])]
  rw [hparse]
  simp only [htfb]
  rw [if_pos (Or.inl trivial)]
  rw [hrc2, List.drop_eq_nil_of_le (by simp)]
  rw [extract_go_nil fuel dest hfuel]
  rw [hflat]

theorem cstr_cons_zero (X : List Nat) : cstr (0 :: X) = [] := by
  simp [cstr]

theorem cstr_cons_ne (b : Nat) (X : List Nat) (h : b ≠ 0) :
    cstr (b :: X) = b :: cstr X := by
  simp [cstr, h]

theorem readRecord_take100_cons (b : Nat) (t : List Nat) :
    ∃ rest, (readRecord (b :: t)).take 100 = b :: rest := by
  unfold readRecord
  rw [List.take_cons (by norm_num), List.cons_append, List.take_cons (by norm_num)]
  exact ⟨_, rfl⟩

/-- A record whose first name byte is NUL stops the extract scan even
when later name bytes are nonzero. -/
theorem extract_stop_zero (fuel : Nat) (dest_path t : List Nat) :
    extract_go (fuel + 1) dest_path (0 :: t) = some [] := by
  obtain ⟨rest, hr⟩ := readRecord_take100_cons 0 t
  simp only [extract_go]
  rw [hr, cstr_cons_zero]
  simp

/-- The same stop for the listing scan. -/
theorem list_stop_zero (fuel : Nat) (t : List Nat) :
    list_entries_go (fuel + 1) (0 :: t) = some [] := by
  obtain ⟨rest, hr⟩ := readRecord_take100_cons 0 t
  simp only [list_entries_go]
  rw [hr, cstr_cons_zero]
  simp

/-- A record whose first name byte is nonzero is never treated as the
end marker: the listing either prints it or raises, so the scan result
is not the empty listing. -/
theorem list_entries_ne_stop (fuel : Nat) (b : Nat) (t : List Nat) (hb : b ≠ 0) :
    list_entries_go (fuel + 1) (b :: t) ≠ some [] := by
  obtain ⟨rest, hr⟩ := readRecord_take100_cons b t
  simp only [list_entries_go]
  rw [hr, cstr_cons_ne b _ hb]
  rw [if_neg (by simp)]
  intro hc
  split at hc
  · exact Option.noConfusion hc
  · split at hc
    · exact Option.noConfusion hc
    · split at hc
      · exact Option.noConfusion hc
      · split at hc
        · exact Option.noConfusion hc
        · split at hc
          · exact Option.noConfusion hc
          · split at hc
            · exact Option.noConfusion hc
            · simp at hc

/-- C5: contrary to the claim, a path that is a symbolic link is never
classified as hardlink or symlink.  The classifier dispatches on
`os.stat`, which follows symlinks, so for a symlink to a regular file
(lstat reports a link, stat reports the regular target, here with
matching device/inode 2/5 and also with an unrelated stat 3/9) the
classifier returns typeflag regular with an empty link target, and
`is_hard_link` returns false; the `S_ISLNK` branch of src/tar.py line
227 is unreachable. -/
theorem C5_symlink_classified_as_target :
    classify ⟨true, FileKind.reg, 2, 5, 2, 5⟩ [47, 116] = (some TAR_TYPE_REGULAR_FILE, []) ∧
    classify ⟨true, FileKind.reg, 2, 5, 3, 9⟩ [47, 116] = (some TAR_TYPE_REGULAR_FILE, []) ∧
    is_hard_link ⟨true, FileKind.reg, 2, 5, 2, 5⟩ = false ∧
    is_hard_link ⟨true, FileKind.reg, 2, 5, 3, 9⟩ = false ∧
    some TAR_TYPE_REGULAR_FILE ≠ some TAR_TYPE_HARDLINK ∧
    some TAR_TYPE_REGULAR_FILE ≠ some TAR_TYPE_SYMLINK := by
  decide

/-- C6: header encoding fails (the ctypes field assignment raises)
whenever the octal text of a numeric field exceeds the field width:
uid or gid at or above 8^8 for their 8-byte fields, the encoded size
value or mtime at or above 8^12 for their 12-byte fields. -/
theorem C6_encoding_overflow_fails (m : EntryMeta)
    (hov : 8 ^ 8 ≤ m.st_uid ∨ 8 ^ 8 ≤ m.st_gid ∨
      8 ^ 12 ≤ sizeVal m ∨ 8 ^ 12 ≤ m.st_mtime) :
    encode_header m = none := by
  have hname : (m.filename.take 99).length ≤ 100 := by
    rw [List.length_take]; omega
  have hmode : (fmtOctal 7 (m.st_mode &&& 511)).length ≤ 8 := by
    have hb : m.st_mode &&& 511 < 8 ^ 3 :=
      lt_of_le_of_lt Nat.and_le_right (by norm_num)
    have := fmtOctal_length_le (w := 7) (by norm_num) hb
    omega
  by_cases hu : (fmtOctal 7 m.st_uid).length ≤ 8
  · by_cases hg : (fmtOctal 7 m.st_gid).length ≤ 8
    · by_cases hs : (fmtOctal 11 (sizeVal m)).length ≤ 12
      · by_cases hmt : (octBytes m.st_mtime).length ≤ 12
        · exfalso
          have h1 : m.st_uid < 8 ^ 8 := (octBytes_length_le_iff _ 8 (by norm_num)).mp
            (by rw [fmtOctal_length] at hu; omega)
          have h2 : m.st_gid < 8 ^ 8 := (octBytes_length_le_iff _ 8 (by norm_num)).mp
            (by rw [fmtOctal_length] at hg; omega)
          have h3 : sizeVal m < 8 ^ 12 := (octBytes_length_le_iff _ 12 (by norm_num)).mp
            (by rw [fmtOctal_length] at hs; omega)
          have h4 : m.st_mtime < 8 ^ 12 := (octBytes_length_le_iff _ 12 (by norm_num)).mp hmt
          rcases hov with h | h | h | h <;> omega
        · simp only [encode_header, setField_of_le hname, setField_of_le hmode,
            setField_of_le hu, setField_of_le hg, setField_of_le hs,
            setField_of_gt (w := 12) (v := octBytes m.st_mtime) (by omega)]
      · simp only [encode_header, setField_of_le hname, setField_of_le hmode,
          setField_of_le hu, setField_of_le hg,
          setField_of_gt (w := 12) (v := fmtOctal 11 (sizeVal m)) (by omega)]
    · simp only [encode_header, setField_of_le hname, setField_of_le hmode,
        setField_of_le hu,
        setField_of_gt (w := 8) (v := fmtOctal 7 m.st_gid) (by omega)]
  · simp only [encode_header, setField_of_le hname, setField_of_le hmode,
      setField_of_gt (w := 8) (v := fmtOctal 7 m.st_uid) (by omega)]

/-- Witness for C6 at a concrete regular file whose size does not fit
the 12-byte size field. -/
theorem C6_encoding_overflow_fails_witness :
    (8 : Nat) ^ 12 ≤ sizeVal ⟨[102], 420, 0, 0, 8 ^ 12, 0,
      some TAR_TYPE_REGULAR_FILE, [], [117], [117], []⟩ ∧
    encode_header ⟨[102], 420, 0, 0, 8 ^ 12, 0,
      some TAR_TYPE_REGULAR_FILE, [], [117], [117], []⟩ = none :=
  ⟨by decide, C6_encoding_overflow_fails _ (Or.inr (Or.inr (Or.inl (by decide))))⟩

/-- C7: on a source holding at least `file_size` bytes, the chunk
generator yields only nonempty chunks of at most `chunk_size` bytes,
their concatenation is exactly the first `file_size` source bytes, and
the source position afterwards is exactly `file_size` (no byte past
the requested count is consumed). -/
theorem C7_read_file_in_chunks_exact (src : List Nat) (file_size chunk_size : Nat)
    (hcs : 0 < chunk_size) (hsrc : file_size ≤ src.length) :
    (read_file_in_chunks src file_size chunk_size).flatten = src.take file_size ∧
    (read_file_in_chunks_go (src.length + 1) src 0 file_size chunk_size).2 =
      src.drop file_size ∧
    ∀ c ∈ read_file_in_chunks src file_size chunk_size,
      c.length ≤ chunk_size ∧ c ≠ [] := by
  have hspec := read_file_in_chunks_go_spec (src.length + 1) src 0 file_size chunk_size
    hcs (by omega) (by omega) (by omega)
  unfold read_file_in_chunks
  refine ⟨?_, ?_, hspec.2.2⟩
  · rw [hspec.1, Nat.sub_zero]
  · rw [hspec.2.1, Nat.sub_zero]

/-- Witness for C7 on a five-byte source with a three-byte transfer in
chunks of two. -/
theorem C7_read_file_in_chunks_exact_witness :
    (read_file_in_chunks [1, 2, 3, 4, 5] 3 2).flatten = [1, 2, 3] ∧
    (read_file_in_chunks_go 6 [1, 2, 3, 4, 5] 0 3 2).2 = [4, 5] :=
  ⟨(C7_read_file_in_chunks_exact [1, 2, 3, 4, 5] 3 2 (by decide) (by decide)).1,
   (C7_read_file_in_chunks_exact [1, 2, 3, 4, 5] 3 2 (by decide) (by decide)).2.1⟩

/-- C9: when a decoded name is an absolute path, the output path
computed by extract is that name itself, the destination directory
being discarded by `os.path.join`. -/
theorem C9_absolute_name_escapes_dest (dest_path name : List Nat)
    (h : name.headD 0 = 47) :
    extract_out_path dest_path name = name := by
  unfold extract_out_path posix_join
  rw [if_pos h]

/-- Witness for C9: joining the default destination with the absolute
name `/e`. -/
theorem C9_absolute_name_escapes_dest_witness :
    extract_out_path [46, 47, 111, 117, 116] [47, 101] = [47, 101] :=
  C9_absolute_name_escapes_dest [46, 47, 111, 117, 116] [47, 101] (by decide)

/-- C10: when the root path exists, the result flag of `create` is
true no matter what the individual `add` calls returned, because it
starts as `True` and is only OR-combined with their results. -/
theorem C10_create_ignores_add_failures (addResults : List Bool) :
    create_result true addResults = true := by
  unfold create_result
  rw [if_neg (by simp)]
  induction addResults with
  | nil => rfl
  | cons a rs ih =>
    rw [List.foldl_cons, Bool.true_or]
    exact ih

/-- C2 counterexample: for a directory entry of stat size 10 the
writer appends no data bytes (data length 0) and yet writes 502 bytes
after the header - the padding of src/tar.py line 273 is computed from
the stat size even though no data was written.  502 matches
`ceil(L/512)*512` neither for the written data length L = 0 (which
gives 0) nor for the stat size L = 10 (which gives 512). -/
theorem C2_dir_padding_counterexample :
    ((addBytes ⟨[100], 493, 0, 0, 10, 0, some TAR_TYPE_DIR, [], [117], [117], []⟩).getD
      []).length = 512 + 502 ∧
    ((addBytes ⟨[100], 493, 0, 0, 10, 0, some TAR_TYPE_DIR, [], [117], [117], []⟩).getD
      []).drop 512 = List.replicate 502 0 ∧
    (502 : Nat) ≠ ceilBlocks 0 ∧ (502 : Nat) ≠ ceilBlocks 10 := by
  refine ⟨by decide, by decide, by decide, by decide⟩

/-- C2 amended: for every data-carrying entry (typeflag regular,
hardlink or symlink) whose file holds exactly `st_size` bytes, the
bytes after the 512-byte header are the content followed by NUL
padding: their count is `ceil(st_size/512)*512` and the trailing
`ceil(st_size/512)*512 - st_size` of them are all zero.  (For other
typeflags no data is written but `ceil(st_size/512)*512 - st_size`
NUL bytes still follow the header, as the counterexample shows.) -/
theorem C2_entry_padding (m : EntryMeta) (h : TarHeader) (tfb : Nat)
    (htf : m.typeflag = some tfb)
    (htfd : tfb = TAR_TYPE_REGULAR_FILE ∨ tfb = TAR_TYPE_HARDLINK ∨ tfb = TAR_TYPE_SYMLINK)
    (henc : encode_header m = some h)
    (hcontent : m.content.length = m.st_size) :
    addBytes m = some (serializeTarHeader h ++ m.content ++
      List.replicate (ceilBlocks m.st_size - m.st_size) 0) ∧
    ((serializeTarHeader h ++ m.content ++
      List.replicate (ceilBlocks m.st_size - m.st_size) 0).drop 512).length =
      ceilBlocks m.st_size ∧
    ((serializeTarHeader h ++ m.content ++
      List.replicate (ceilBlocks m.st_size - m.st_size) 0).drop 512).drop m.st_size =
      List.replicate (ceilBlocks m.st_size - m.st_size) 0 ∧
    ∀ b ∈ ((serializeTarHeader h ++ m.content ++
      List.replicate (ceilBlocks m.st_size - m.st_size) 0).drop 512).drop m.st_size,
      b = 0 := by
  have hargs : m.typeflag = some TAR_TYPE_REGULAR_FILE ∨
      m.typeflag = some TAR_TYPE_HARDLINK ∨ m.typeflag = some TAR_TYPE_SYMLINK := by
    rcases htfd with h1 | h1 | h1 <;> rw [h1] at htf <;> tauto
  have hadd := addBytes_data m h henc hargs hcontent
  have hdrop : (serializeTarHeader h ++ m.content ++
      List.replicate (ceilBlocks m.st_size - m.st_size) 0).drop 512 =
      m.content ++ List.replicate (ceilBlocks m.st_size - m.st_size) 0 := by
    rw [List.append_assoc, List.drop_left' (serializeTarHeader_length h)]
  have hle := le_ceilBlocks m.st_size
  refine ⟨hadd, ?_, ?_, ?_⟩
  · rw [hdrop]
    simp only [List.length_append, List.length_replicate, hcontent]
    omega
  · rw [hdrop, List.drop_left' hcontent]
  · intro b hb
    rw [hdrop, List.drop_left' hcontent] at hb
    exact (List.eq_of_mem_replicate hb)

/-- Witness for C2 on a two-byte regular file. -/
theorem C2_entry_padding_witness :
    addBytes ⟨[102], 420, 1, 2, 2, 3, some TAR_TYPE_REGULAR_FILE, [], [117], [103], [97, 98]⟩ =
      some (serializeTarHeader (headerOf
        ⟨[102], 420, 1, 2, 2, 3, some TAR_TYPE_REGULAR_FILE, [], [117], [103], [97, 98]⟩
        TAR_TYPE_REGULAR_FILE) ++ [97, 98] ++ List.replicate (ceilBlocks 2 - 2) 0) ∧
    ((serializeTarHeader (headerOf
        ⟨[102], 420, 1, 2, 2, 3, some TAR_TYPE_REGULAR_FILE, [], [117], [103], [97, 98]⟩
        TAR_TYPE_REGULAR_FILE) ++ [97, 98] ++
      List.replicate (ceilBlocks 2 - 2) 0).drop 512).length = ceilBlocks 2 := by
  have henc := encode_header_success
    ⟨[102], 420, 1, 2, 2, 3, some TAR_TYPE_REGULAR_FILE, [], [117], [103], [97, 98]⟩
    TAR_TYPE_REGULAR_FILE rfl (by decide) (by decide) (by decide) (by decide) (by decide)
    (headerOf0_checksum_lt _ _ (by decide) (by decide) (by decide) (by decide) (by decide))
  exact ⟨(C2_entry_padding _ _ TAR_TYPE_REGULAR_FILE rfl (Or.inl rfl) henc (by decide)).1,
    (C2_entry_padding _ _ TAR_TYPE_REGULAR_FILE rfl (Or.inl rfl) henc (by decide)).2.1⟩

/-- C4 counterexample: for a directory entry of stat size 100 the size
field encodes 0, yet 412 NUL padding bytes are written after the
header, contradicting the claim that nothing follows the header of a
directory entry. -/
theorem C4_dir_padding_counterexample :
    ((addBytes ⟨[100], 493, 0, 0, 100, 0, some TAR_TYPE_DIR, [], [117], [117], []⟩).getD
      []).length = 512 + 412 ∧
    (((addBytes ⟨[100], 493, 0, 0, 100, 0, some TAR_TYPE_DIR, [], [117], [117], []⟩).getD
      []).drop 124).take 12 = List.replicate 11 48 ++ [0] ∧
    (412 : Nat) ≠ 0 := by
  refine ⟨by decide, by decide, by decide⟩

/-- C4 amended: for device, FIFO and directory entries `add` writes no
data bytes; the size field encodes 0 for directories (for devices and
FIFOs it encodes the stat size); and the bytes after the header are
exactly `ceil(st_size/512)*512 - st_size` NULs - none precisely when
the stat size is a multiple of 512, in particular for a stat size of
0. -/
theorem C4_nodata_entries (m : EntryMeta) (tfb : Nat)
    (htf : m.typeflag = some tfb)
    (htfd : tfb = TAR_TYPE_CHAR ∨ tfb = TAR_TYPE_BLOCK ∨ tfb = TAR_TYPE_DIR ∨
      tfb = TAR_TYPE_FIFO)
    (huid : m.st_uid < 8 ^ 8) (hgid : m.st_gid < 8 ^ 8)
    (hsize : m.st_size < 8 ^ 12) (hmtime : m.st_mtime < 8 ^ 12)
    (hgl : m.group.length ≤ 32)
    (hf : ∀ b ∈ m.filename, b < 256) (hfu : ∀ b ∈ m.username, b < 256)
    (hg : ∀ b ∈ m.group, b < 256) (hl : ∀ b ∈ m.linkname, b < 256) :
    addBytes m = some (serializeTarHeader (headerOf m tfb) ++
      List.replicate (ceilBlocks m.st_size - m.st_size) 0) ∧
    (tfb = TAR_TYPE_DIR → (headerOf m tfb).size = padTo 12 (fmtOctal 11 0)) ∧
    (m.st_size % 512 = 0 → addBytes m = some (serializeTarHeader (headerOf m tfb))) := by
  have htfb : tfb < 256 := by
    rcases htfd with h1 | h1 | h1 | h1 <;> subst h1 <;> decide
  have hsv : sizeVal m < 8 ^ 12 := by
    unfold sizeVal
    split
    · positivity
    · exact hsize
  have henc := encode_header_success m tfb htf huid hgid hsv hmtime hgl
    (headerOf0_checksum_lt m tfb hf hfu hg hl htfb)
  have hnot : ¬ (m.typeflag = some TAR_TYPE_REGULAR_FILE ∨
      m.typeflag = some TAR_TYPE_HARDLINK ∨ m.typeflag = some TAR_TYPE_SYMLINK) := by
    rw [htf]
    simp only [Option.some.injEq]
    rcases htfd with h1 | h1 | h1 | h1 <;> subst h1 <;> decide
  have hadd := addBytes_nodata m (headerOf m tfb) henc hnot
  refine ⟨hadd, ?_, ?_⟩
  · intro hd
    have hz : sizeVal m = 0 := by
      rw [sizeVal, htf, hd]
      simp
    show padTo 12 (fmtOctal 11 (sizeVal m)) = padTo 12 (fmtOctal 11 0)
    rw [hz]
  · intro h512
    rw [hadd, ceilBlocks_eq_of_mod _ h512]
    simp

/-- Witness for C4 on a FIFO of stat size 0. -/
theorem C4_nodata_entries_witness :
    addBytes ⟨[112], 420, 1, 2, 0, 3, some TAR_TYPE_FIFO, [], [117], [103], []⟩ =
      some (serializeTarHeader (headerOf
        ⟨[112], 420, 1, 2, 0, 3, some TAR_TYPE_FIFO, [], [117], [103], []⟩ TAR_TYPE_FIFO) ++
        List.replicate (ceilBlocks 0 - 0) 0) ∧
    addBytes ⟨[112], 420, 1, 2, 0, 3, some TAR_TYPE_FIFO, [], [117], [103], []⟩ =
      some (serializeTarHeader (headerOf
        ⟨[112], 420, 1, 2, 0, 3, some TAR_TYPE_FIFO, [], [117], [103], []⟩ TAR_TYPE_FIFO)) :=
  ⟨(C4_nodata_entries _ TAR_TYPE_FIFO rfl (by tauto) (by decide) (by decide) (by decide)
      (by decide) (by decide) (by decide) (by decide) (by decide) (by decide)).1,
   (C4_nodata_entries _ TAR_TYPE_FIFO rfl (by tauto) (by decide) (by decide) (by decide)
      (by decide) (by decide) (by decide) (by decide) (by decide) (by decide)).2.2 rfl⟩

/-- C8 counterexample: a header record whose name field starts with a
NUL but carries a nonzero second byte (so the field is not entirely
zero) still stops both the extract scan and the listing scan, because
the reader tests the NUL-terminated name string for emptiness, not the
whole field. -/
theorem C8_nonzero_name_field_stops_scan :
    extract [111] (0 :: 97 :: List.replicate 510 0) = some [] ∧
    list_entries (0 :: 97 :: List.replicate 510 0) = some [] ∧
    (readRecord (0 :: 97 :: List.replicate 510 0)).take 100 ≠ List.replicate 100 0 := by
  refine ⟨by decide, by decide, by decide⟩

/-- C8 amended: during list and extract the scan stops (treating the
record as end of archive) exactly when the first byte of the name
field is zero - including the case of end-of-file, where `readinto`
leaves the zero-initialised header untouched; a header whose name
field has a nonzero first byte is never the end marker. -/
theorem C8_scan_stops_iff_first_name_byte_zero :
    (∀ dest_path bs : List Nat, bs.headD 0 = 0 →
      extract dest_path bs = some [] ∧ list_entries bs = some []) ∧
    (∀ bs : List Nat, list_entries bs = some [] → bs.headD 0 = 0) := by
  constructor
  · intro dest bs h
    match bs, h with
    | [], _ =>
      exact ⟨extract_go_nil 1 dest (by norm_num), list_entries_go_nil 1 (by norm_num)⟩
    | b :: t, h =>
      have hb : b = 0 := by simpa using h
      subst hb
      constructor
      · show extract_go ((0 :: t).length + 1) dest (0 :: t) = some []
        have he : (0 :: t).length + 1 = (t.length + 1) + 1 := by simp
        rw [he]
        exact extract_stop_zero (t.length + 1) dest t
      · show list_entries_go ((0 :: t).length + 1) (0 :: t) = some []
        have he : (0 :: t).length + 1 = (t.length + 1) + 1 := by simp
        rw [he]
        exact list_stop_zero (t.length + 1) t
  · intro bs h
    match bs with
    | [] => rfl
    | b :: t =>
      by_contra hb
      have hbne : b ≠ 0 := by simpa using hb
      have hne : list_entries_go ((b :: t).length + 1) (b :: t) ≠ some [] := by
        have he : (b :: t).length + 1 = (t.length + 1) + 1 := by simp
        rw [he]
        exact list_entries_ne_stop (t.length + 1) b t hbne
      exact hne h

/-- Witness for C8 at a two-byte truncated archive and at end-of-file. -/
theorem C8_scan_stops_iff_witness :
    (extract [100] [0, 97] = some [] ∧ list_entries [0, 97] = some []) ∧
    ([] : List Nat).headD 0 = 0 :=
  ⟨C8_scan_stops_iff_first_name_byte_zero.1 [100] [0, 97] (by decide),
   C8_scan_stops_iff_first_name_byte_zero.2 []
     (C8_scan_stops_iff_first_name_byte_zero.1 [] [] (by decide)).2⟩

/-- C1 counterexample: two regular files identical except for their
permission bits (0o750 = 488 versus 0o644 = 420) produce archives
that extract to exactly the same filesystem actions - a file write
carrying no mode at all (`extract` opens the output with
`open(out_path, "wb")` and never applies the stored mode field).  The
extracted file is created with the default creation permissions of
the extracting process, so its permission bits cannot equal those of
the original for both sources, refuting the claimed permission
round-trip. -/
theorem C1_permission_bits_not_restored :
    addBytes ⟨[102], 488, 0, 0, 1, 0, some TAR_TYPE_REGULAR_FILE, [], [117], [117], [97]⟩ ≠
      addBytes ⟨[102], 420, 0, 0, 1, 0, some TAR_TYPE_REGULAR_FILE, [], [117], [117], [97]⟩ ∧
    extract [111, 117, 116]
      ((addBytes ⟨[102], 488, 0, 0, 1, 0, some TAR_TYPE_REGULAR_FILE, [], [117], [117],
        [97]⟩).getD []) =
      some [FsAction.writeFile [111, 117, 116, 47, 102] [97]] ∧
    extract [111, 117, 116]
      ((addBytes ⟨[102], 420, 0, 0, 1, 0, some TAR_TYPE_REGULAR_FILE, [], [117], [117],
        [97]⟩).getD []) =
      some [FsAction.writeFile [111, 117, 116, 47, 102] [97]] ∧
    (488 : Nat) ≠ 420 := by
  refine ⟨by decide, by decide, by decide, by decide⟩

/-- C1 amended: `create` on a single regular file (archive truncated,
one `add`) followed by `extract` into a destination reproduces a file
with byte-identical content at the joined path; the permission bits
are not reproduced - the extraction result is the same for every
permission mode of the original, since the mode field is never read
back. -/
theorem C1_content_roundtrip (m : EntryMeta) (dest_path : List Nat)
    (htf : m.typeflag = some TAR_TYPE_REGULAR_FILE)
    (hne : m.filename ≠ []) (hlen99 : m.filename.length ≤ 99)
    (hnz : ∀ b ∈ m.filename, 0 < b ∧ b < 256)
    (hu256 : ∀ b ∈ m.username, b < 256) (hg256 : ∀ b ∈ m.group, b < 256)
    (hlink : m.linkname = []) (hgl : m.group.length ≤ 32)
    (huid : m.st_uid < 8 ^ 8) (hgid : m.st_gid < 8 ^ 8)
    (hmtime : m.st_mtime < 8 ^ 12) (hsize : m.st_size < 8 ^ 11)
    (hcontent : m.content.length = m.st_size) :
    (addBytes m = some (regArchiveOf m) ∧
      extract dest_path (regArchiveOf m) =
        some [FsAction.writeFile (extract_out_path dest_path m.filename) m.content]) ∧
    ∀ mode2, addBytes (setStMode m mode2) = some (regArchiveOf (setStMode m mode2)) ∧
      extract dest_path (regArchiveOf (setStMode m mode2)) =
        some [FsAction.writeFile (extract_out_path dest_path m.filename) m.content] := by
  have master : ∀ mm : EntryMeta, mm.typeflag = some TAR_TYPE_REGULAR_FILE →
      mm.filename ≠ [] → mm.filename.length ≤ 99 →
      (∀ b ∈ mm.filename, 0 < b ∧ b < 256) →
      (∀ b ∈ mm.username, b < 256) → (∀ b ∈ mm.group, b < 256) →
      mm.linkname = [] → mm.group.length ≤ 32 →
      mm.st_uid < 8 ^ 8 → mm.st_gid < 8 ^ 8 →
      mm.st_mtime < 8 ^ 12 → mm.st_size < 8 ^ 11 →
      mm.content.length = mm.st_size →
      addBytes mm = some (regArchiveOf mm) ∧
      extract dest_path (regArchiveOf mm) =
        some [FsAction.writeFile (extract_out_path dest_path mm.filename) mm.content] := by
    intro mm htf2 hne2 hlen2 hnz2 hu2 hg2 hlink2 hgl2 huid2 hgid2 hmtime2 hsize2 hcont2
    have hsv : sizeVal mm = mm.st_size := by
      simp [sizeVal, htf2, TAR_TYPE_REGULAR_FILE, TAR_TYPE_DIR]
    have hsv12 : sizeVal mm < 8 ^ 12 := by
      rw [hsv]
      have hpow : (8 : Nat) ^ 11 < 8 ^ 12 := by norm_num
      omega
    have hl2 : ∀ b ∈ mm.linkname, b < 256 := by
      intro b hb
      rw [hlink2] at hb
      simp at hb
    have henc := encode_header_success mm TAR_TYPE_REGULAR_FILE htf2 huid2 hgid2
      hsv12 hmtime2 hgl2
      (headerOf0_checksum_lt mm TAR_TYPE_REGULAR_FILE
        (fun b hb => (hnz2 b hb).2) hu2 hg2 hl2 (by decide))
    constructor
    · have := addBytes_data mm (headerOf mm TAR_TYPE_REGULAR_FILE) henc
        (Or.inl htf2) hcont2
      rw [this]
      rfl
    · have hlenA : 1 ≤ (regArchiveOf mm).length := by
        have h512 := serializeTarHeader_length (headerOf mm TAR_TYPE_REGULAR_FILE)
        unfold regArchiveOf
        simp only [List.length_append, h512]
        omega
      show extract_go ((regArchiveOf mm).length + 1) dest_path (regArchiveOf mm) = _
      exact extract_go_regular mm dest_path ((regArchiveOf mm).length) hlenA hne2
        hlen2 (fun b hb => by have := (hnz2 b hb).1; omega) hsize2 htf2 hcont2
  refine ⟨master m htf hne hlen99 hnz hu256 hg256 hlink hgl huid hgid hmtime hsize
    hcontent, fun mode2 => master (setStMode m mode2) htf hne hlen99 hnz hu256 hg256
    hlink hgl huid hgid hmtime hsize hcontent⟩

/-- Witness for C1 on a five-byte file named `f1` extracted into
destination `d`. -/
theorem C1_content_roundtrip_witness :
    addBytes ⟨[102, 49], 420, 3, 7, 5, 9, some TAR_TYPE_REGULAR_FILE, [], [117], [103],
      [104, 101, 108, 108, 111]⟩ =
      some (regArchiveOf ⟨[102, 49], 420, 3, 7, 5, 9, some TAR_TYPE_REGULAR_FILE, [],
        [117], [103], [104, 101, 108, 108, 111]⟩) ∧
    extract [100] (regArchiveOf ⟨[102, 49], 420, 3, 7, 5, 9, some TAR_TYPE_REGULAR_FILE,
      [], [117], [103], [104, 101, 108, 108, 111]⟩) =
      some [FsAction.writeFile (extract_out_path [100] [102, 49])
        [104, 101, 108, 108, 111]] :=
  (C1_content_roundtrip
    ⟨[102, 49], 420, 3, 7, 5, 9, some TAR_TYPE_REGULAR_FILE, [], [117], [103],
      [104, 101, 108, 108, 111]⟩ [100] rfl (by decide) (by decide) (by decide)
    (by decide) (by decide) rfl (by decide) (by decide) (by decide) (by decide)
    (by decide) (by decide)).1

end Tar
